import Mathlib

/-!
Verification of the MiniBERT layer stack (`minibert.ipynb`).

Tensors of rank 3 (`[batch, seq, features]`) are embedded as nested lists of
rationals.  The external tensor engine's primitive scalar functions that have
no exact rational counterpart are passed in as parameters: `exp` (used by
`tf.nn.softmax`), `drop` (the elementwise transform realized by
`tf.nn.dropout`, identity in evaluation mode) and `sqrt` (`np.sqrt`, used
once at `MultiHeadAttention` construction for the scale).  Learned parameters
(`tf.layers.dense` weight/bias pairs, materialized by the engine under scoped
names) are supplied explicitly as functions of the index.
-/

namespace MiniBert

/-- Rank-3 tensor `[batch, seq, features]` as nested lists of rationals. -/
abbrev Tensor3 := List (List (List ℚ))

/-- Finite axis reduction: the sum `f 0 + ... + f (n - 1)`. -/
def rsum (n : ℕ) (f : ℕ → ℚ) : ℚ := ((List.range n).map f).sum

/-- Epsilon of `LayerNormLayer.__init__` (`self._eps = 1e-6`). -/
def eps : ℚ := 1 / 1000000

/-- Elementwise map over a rank-3 tensor. -/
def map3 (f : ℚ → ℚ) (X : Tensor3) : Tensor3 :=
  X.map (fun m => m.map (fun v => v.map f))

/-- Elementwise addition `X + Y` of two equal-shaped rank-3 tensors. -/
def tAdd (X Y : Tensor3) : Tensor3 :=
  List.zipWith (List.zipWith (List.zipWith (fun a b => a + b))) X Y

/-- Shape predicate: `X` is a well-formed `[b, s, f]` tensor. -/
def isTensor3 (b s f : ℕ) (X : Tensor3) : Prop :=
  X.length = b ∧ ∀ m ∈ X, m.length = s ∧ ∀ v ∈ m, v.length = f

instance (b s f : ℕ) (X : Tensor3) : Decidable (isTensor3 b s f X) := by
  unfold isTensor3; infer_instance

/-- Outer-grid predicate: `X` has `b` batch rows of `s` positions each (any
feature widths). -/
def isGrid (b s : ℕ) (X : Tensor3) : Prop :=
  X.length = b ∧ ∀ m ∈ X, m.length = s

/-- Dense affine map `tf.layers.dense(X, out_dim, activation=None)` applied to
the last axis; `W`/`bias` are the engine-materialized kernel and bias. -/
def dense_on (out_dim : ℕ) (W : ℕ → ℕ → ℚ) (bias : ℕ → ℚ) (X : Tensor3) : Tensor3 :=
  X.map (fun m => m.map (fun x =>
    (List.range out_dim).map (fun j => rsum x.length (fun i => x.getD i 0 * W i j) + bias j)))

/-- Elementwise engine dropout (`tf.nn.dropout` with keep probability
`1 - rate`), abstracted as the per-element transform `drop`. -/
def dropout_on (drop : ℚ → ℚ) (X : Tensor3) : Tensor3 := map3 drop X

/-- Rectified linear unit `tf.nn.relu`, elementwise. -/
def relu_on (X : Tensor3) : Tensor3 := map3 (fun x => max x 0) X

/-- Mean and variance of one feature vector: the two results, in order, of
`tf.nn.moments(X, axes=-1)`. -/
def moments (v : List ℚ) : ℚ × ℚ :=
  let n : ℚ := v.length
  let mean := v.sum / n
  (mean, (v.map (fun x => (x - mean) ^ 2)).sum / n)

/-- Body of `LayerNormLayer.on` on one feature vector.  The source binds
`self.mean, self.std = tf.nn.moments(X, axes=-1, keep_dims=True)` and returns
`(X - self.mean) / (self.std + self._eps)`; since `tf.nn.moments` returns the
pair (mean, variance), the field named `std` holds the variance. -/
def layerNormVec (v : List ℚ) : List ℚ :=
  let mean := (moments v).1
  let std := (moments v).2
  v.map (fun x => (x - mean) / (std + eps))

/-- Body of `LayerNormLayer.on(X)`: per-position normalization over the last
axis only. -/
def layerNorm_on (X : Tensor3) : Tensor3 := X.map (fun m => m.map layerNormVec)

/-- Softmax of one row (`tf.nn.softmax` along the last axis), with the engine
exponential abstracted as `exp`. -/
def softmaxVec (exp : ℚ → ℚ) (v : List ℚ) : List ℚ :=
  let e := v.map exp
  e.map (fun x => x / e.sum)

/-- Construction state of `LinearLayer.__init__`: the configured output
dimension. -/
structure LinearLayer where
  out_dim : ℕ

/-- Construction state of `ScaledDotProdAttentionLayer.__init__`: the fixed
scale and the dropout rate handed to its `DropoutLayer`. -/
structure ScaledDotProdAttentionLayer where
  scale : ℚ
  dropout : ℚ

/-- Per-head tuple `namedtuple("Head", ["to_q", "to_k", "to_v", "attn"])`. -/
structure Head where
  to_q : LinearLayer
  to_k : LinearLayer
  to_v : LinearLayer
  attn : ScaledDotProdAttentionLayer

/-- Construction state of `MultiHeadAttention.__init__`. -/
structure MultiHeadAttention where
  h : ℕ
  d_k : ℕ
  d_model : ℕ
  scale : ℚ
  heads : List Head
  out_layer : LinearLayer

/-- Message of Python's division-by-zero exception. -/
def zeroDivMsg : String := "ZeroDivisionError: integer division or modulo by zero"

/-- Python integer floor division `a // b`: raises `ZeroDivisionError` when the
divisor is zero, otherwise floors. -/
def pydiv (a b : ℕ) : Except String ℕ :=
  if b = 0 then .error zeroDivMsg else .ok (a / b)

/-- Constructor `MultiHeadAttention.__init__(dropout, d_model, h)`:
`self.d_k = d_model // h`, `self.scale = 1 / np.sqrt(self.d_k)`, then `h`
heads each with q/k/v `LinearLayer(d_k)` and a
`ScaledDotProdAttentionLayer(scale, dropout)`, plus the output
`LinearLayer(d_model)`. -/
def mhaInit (sqrt : ℕ → ℚ) (dropout : ℚ) (d_model h : ℕ) :
    Except String MultiHeadAttention :=
  match pydiv d_model h with
  | .error e => .error e
  | .ok d_k =>
    .ok { h := h, d_k := d_k, d_model := d_model, scale := 1 / sqrt d_k,
          heads := (List.range h).map
            (fun _ => ⟨⟨d_k⟩, ⟨d_k⟩, ⟨d_k⟩, ⟨1 / sqrt d_k, dropout⟩⟩),
          out_layer := ⟨d_model⟩ }

/-- Body of `ScaledDotProdAttentionLayer.on(Q, K, V)`:
`dot = einsum('mqd,mkd->mqk', Q, K)`, `scores = softmax(scale * dot)`,
`dropped_scores = dropout(scores)`, `A = einsum('mqk,mkd->mqd', dropped_scores, V)`. -/
def sdpa_on (exp drop : ℚ → ℚ) (l : ScaledDotProdAttentionLayer) (Q K V : Tensor3) : Tensor3 :=
  let dot := List.zipWith (fun Qm Km =>
    Qm.map (fun qrow => Km.map (fun krow =>
      rsum qrow.length (fun i => qrow.getD i 0 * krow.getD i 0)))) Q K
  let scores := dot.map (fun m => m.map (fun row =>
    softmaxVec exp (row.map (fun x => l.scale * x))))
  let dropped := dropout_on drop scores
  List.zipWith (fun Sm Vm =>
    Sm.map (fun srow => (List.range (Vm.headD []).length).map (fun d =>
      rsum Vm.length (fun k => srow.getD k 0 * (Vm.getD k []).getD d 0)))) dropped V

/-- Engine-materialized parameters of one `MultiHeadAttention` instance:
per-head-index q/k/v kernels and biases, and the output projection. -/
structure MHAParams where
  Wq : ℕ → ℕ → ℕ → ℚ
  bq : ℕ → ℕ → ℚ
  Wk : ℕ → ℕ → ℕ → ℚ
  bk : ℕ → ℕ → ℚ
  Wv : ℕ → ℕ → ℕ → ℚ
  bv : ℕ → ℕ → ℚ
  Wo : ℕ → ℕ → ℚ
  bo : ℕ → ℚ

/-- Binary last-axis concatenation of equal-grid tensors. -/
def concat2 (X Y : Tensor3) : Tensor3 :=
  List.zipWith (List.zipWith (fun u v => u ++ v)) X Y

/-- Last-axis `tf.concat(ts, axis=-1)` of a nonempty tensor list. -/
def concatLast : List Tensor3 → Tensor3
  | [] => []
  | t :: ts => ts.foldl concat2 t

/-- Loop body of `MultiHeadAttention.on(X)` for the head of index `i` (scope
`h{i}`): `q = h.to_q.on(X)`, `k = h.to_k.on(X)`, `v = h.to_v.on(X)`,
`a = h.attn.on(q, k, v)`. -/
def head_on (exp drop : ℚ → ℚ) (p : MHAParams) (i : ℕ) (hd : Head) (X : Tensor3) : Tensor3 :=
  sdpa_on exp drop hd.attn
    (dense_on hd.to_q.out_dim (p.Wq i) (p.bq i) X)
    (dense_on hd.to_k.out_dim (p.Wk i) (p.bk i) X)
    (dense_on hd.to_v.out_dim (p.Wv i) (p.bv i) X)

/-- Body of `MultiHeadAttention.on(X)`: run every enumerated head on `X`,
concatenate the head outputs on the last axis (`self.A`), apply the output
projection `self.out_layer`. -/
def mha_on (exp drop : ℚ → ℚ) (p : MHAParams) (mha : MultiHeadAttention) (X : Tensor3) : Tensor3 :=
  dense_on mha.out_layer.out_dim p.Wo p.bo
    (concatLast (mha.heads.enum.map (fun ih => head_on exp drop p ih.1 ih.2 X)))

/-- Construction state of `FeedForwardLayer.__init__(dropout, d_model, d_ff)`. -/
structure FeedForwardLayer where
  dropout : ℚ
  d_ff : ℕ
  linear1 : LinearLayer
  linear2 : LinearLayer

/-- Constructor `FeedForwardLayer.__init__`: `linear1 = LinearLayer(d_ff)`,
`linear2 = LinearLayer(d_model)`. -/
def ffInit (dropout : ℚ) (d_model d_ff : ℕ) : FeedForwardLayer :=
  { dropout := dropout, d_ff := d_ff, linear1 := ⟨d_ff⟩, linear2 := ⟨d_model⟩ }

/-- Engine-materialized parameters of one `FeedForwardLayer` instance. -/
structure FFParams where
  W1 : ℕ → ℕ → ℚ
  b1 : ℕ → ℚ
  W2 : ℕ → ℕ → ℚ
  b2 : ℕ → ℚ

/-- Body of `FeedForwardLayer.on(X)`:
`linear2.on(dropout.on(relu(linear1.on(X))))`. -/
def ff_on (drop : ℚ → ℚ) (p : FFParams) (f : FeedForwardLayer) (X : Tensor3) : Tensor3 :=
  dense_on f.linear2.out_dim p.W2 p.b2
    (dropout_on drop (relu_on (dense_on f.linear1.out_dim p.W1 p.b1 X)))

/-- The two concrete sublayer kinds an `EncoderSubLayer` may host (the source
injects the class as a factory argument). -/
inductive SubLayer where
  | mha : MultiHeadAttention → SubLayer
  | ff : FeedForwardLayer → SubLayer

/-- Construction state of `EncoderSubLayer.__init__`: its dropout rate and the
hosted sublayer (the `LayerNormLayer` member is stateless here). -/
structure EncoderSubLayer where
  dropout : ℚ
  sublayer : SubLayer

/-- Engine-materialized parameters of one `EncoderLayer` (attention part and
feed-forward part). -/
structure EncParams where
  attn : MHAParams
  ffwd : FFParams

/-- Evaluation of the hosted sublayer of an `EncoderSubLayer`. -/
def subLayer_on (exp drop : ℚ → ℚ) (p : EncParams) : SubLayer → Tensor3 → Tensor3
  | .mha m, X => mha_on exp drop p.attn m X
  | .ff f, X => ff_on drop p.ffwd f X

/-- Body of `EncoderSubLayer.on(X)`:
`X + self.dropout.on(self.sublayer.on(self.layer_norm.on(X)))`. -/
def encoderSub_on (exp drop : ℚ → ℚ) (p : EncParams) (l : EncoderSubLayer) (X : Tensor3) : Tensor3 :=
  tAdd X (dropout_on drop (subLayer_on exp drop p l.sublayer (layerNorm_on X)))

/-- Construction state of `EncoderLayer.__init__`: the attention sub-block and
the feed-forward sub-block. -/
structure EncoderLayer where
  mha_sublayer : EncoderSubLayer
  ffwd_sublayer : EncoderSubLayer

/-- Constructor `EncoderLayer.__init__(dropout, d_model, heads, d_ff)`. -/
def encoderLayerInit (sqrt : ℕ → ℚ) (dropout : ℚ) (d_model heads d_ff : ℕ) :
    Except String EncoderLayer :=
  match mhaInit sqrt dropout d_model heads with
  | .error e => .error e
  | .ok m =>
    .ok { mha_sublayer := ⟨dropout, .mha m⟩,
          ffwd_sublayer := ⟨dropout, .ff (ffInit dropout d_model d_ff)⟩ }

/-- Body of `EncoderLayer.on(X)`:
`self.ffwd_sublayer.on(self.mha_sublayer.on(X))`. -/
def encoderLayer_on (exp drop : ℚ → ℚ) (p : EncParams) (l : EncoderLayer) (X : Tensor3) : Tensor3 :=
  encoderSub_on exp drop p l.ffwd_sublayer (encoderSub_on exp drop p l.mha_sublayer X)

/-- Construction state of `BERTModel.__init__`: the ordered encoder layers. -/
structure BERTModel where
  layers : List EncoderLayer

/-- Loop of `BERTModel.__init__`: build `n` encoder layers in order. -/
def initLayers (sqrt : ℕ → ℚ) (dropout : ℚ) (d_model heads d_ff : ℕ) :
    ℕ → Except String (List EncoderLayer)
  | 0 => .ok []
  | n + 1 =>
    match encoderLayerInit sqrt dropout d_model heads d_ff with
    | .error e => .error e
    | .ok el =>
      match initLayers sqrt dropout d_model heads d_ff n with
      | .error e => .error e
      | .ok rest => .ok (el :: rest)

/-- Constructor `BERTModel.__init__(layers, dropout, d_model, heads, d_ff)`. -/
def bertInit (sqrt : ℕ → ℚ) (layers : ℕ) (dropout : ℚ) (d_model heads d_ff : ℕ) :
    Except String BERTModel :=
  (initLayers sqrt dropout d_model heads d_ff layers).map (fun ls => ⟨ls⟩)

/-- Body of `BERTModel.on(X)`: `for layer in self.layers: X = layer.on(X)`;
`p i` supplies layer `i`'s independently-scoped engine parameters. -/
def bert_on (exp drop : ℚ → ℚ) (p : ℕ → EncParams) (bm : BERTModel) (X : Tensor3) : Tensor3 :=
  bm.layers.enum.foldl (fun acc il => encoderLayer_on exp drop (p il.1) il.2 acc) X

/-- Decorator `graph_def(f)` acting on one memo slot `self.outputs`: if the
slot is `None`, run the wrapped computation and store it; return the stored
output.  Result: (returned tensor, new memo slot). -/
def graph_def {α β : Type _} (f : α → β) (outputs : Option β) (x : α) : β × Option β :=
  match outputs with
  | some y => (y, some y)
  | none => (f x, some (f x))

/-- Discriminator for successful construction. -/
def isOk {ε α : Type _} : Except ε α → Bool
  | .ok _ => true
  | .error _ => false

/-- Index-form reading of a rank-3 tensor (out-of-range reads default to 0). -/
def get3 (X : Tensor3) (i j k : ℕ) : ℚ := ((X.getD i []).getD j []).getD k 0

/-- Canonical `[b, s, f]` tensor built from an index function. -/
def toTensor (b s f : ℕ) (g : ℕ → ℕ → ℕ → ℚ) : Tensor3 :=
  (List.range b).map (fun i => (List.range s).map (fun j => (List.range f).map (fun k => g i j k)))

/-- Raw attention compatibility of the spec: `dot[b,q,k] = Σ_d Q[b,q,d]·K[b,k,d]`. -/
def sdpaDot (Q K : ℕ → ℕ → ℕ → ℚ) (d_k b q k : ℕ) : ℚ :=
  rsum d_k (fun i => Q b q i * K b k i)

/-- Spec formula for scaled dot-product attention, written from the claim's
words: scale the raw scores, softmax over the key axis, dropout, then
`A[b,q,d] = Σ_k scores[b,q,k]·V[b,k,d]`. -/
def sdpaFormula (exp drop : ℚ → ℚ) (scale : ℚ) (nk d_k : ℕ)
    (Q K V : ℕ → ℕ → ℕ → ℚ) (b q d : ℕ) : ℚ :=
  rsum nk (fun k =>
    drop (exp (scale * sdpaDot Q K d_k b q k) /
          rsum nk (fun k2 => exp (scale * sdpaDot Q K d_k b q k2))) * V b k d)

/-- Spec formula of the residual wrapper, written from the spec's words:
`output = X + Dropout(sublayer(LayerNorm(X)))`. -/
def resNorm_spec (drop : ℚ → ℚ) (sub : Tensor3 → Tensor3) (X : Tensor3) : Tensor3 :=
  tAdd X (dropout_on drop (sub (layerNorm_on X)))

/-- Stand-in engine square root used when a concrete instance is needed; on
the head dimension 1 it agrees with `np.sqrt`. -/
def sqrtOne : ℕ → ℚ := fun _ => 1

/-- Stand-in engine exponential used at concrete evaluations. -/
def qexp : ℚ → ℚ := fun _ => 1

/-- Stand-in engine dropout transform (evaluation mode: identity). -/
def qdrop : ℚ → ℚ := fun x => x

/-- All-zero multi-head attention parameters for concrete evaluations. -/
def pZero : MHAParams :=
  ⟨fun _ _ _ => 0, fun _ _ => 0, fun _ _ _ => 0, fun _ _ => 0,
   fun _ _ _ => 0, fun _ _ => 0, fun _ _ => 0, fun _ => 0⟩

/-- All-zero feed-forward parameters for concrete evaluations. -/
def ffPZero : FFParams := ⟨fun _ _ => 0, fun _ => 0, fun _ _ => 0, fun _ => 0⟩

/-- All-zero encoder-layer parameters for concrete evaluations. -/
def encPZero : EncParams := ⟨pZero, ffPZero⟩

/-- Value of `MultiHeadAttention(dropout=1/10, d_model=2, h=2)` under
`sqrtOne`, for concrete evaluations. -/
def mhaW : MultiHeadAttention :=
  { h := 2, d_k := 1, d_model := 2, scale := 1 / sqrtOne 1,
    heads := (List.range 2).map (fun _ => ⟨⟨1⟩, ⟨1⟩, ⟨1⟩, ⟨1 / sqrtOne 1, 1 / 10⟩⟩),
    out_layer := ⟨2⟩ }

/-- Value of `MultiHeadAttention(dropout=1/10, d_model=2, h=1)` under
`sqrtOne`, for concrete evaluations. -/
def mhaW1 : MultiHeadAttention :=
  { h := 1, d_k := 2, d_model := 2, scale := 1 / sqrtOne 2,
    heads := (List.range 1).map (fun _ => ⟨⟨2⟩, ⟨2⟩, ⟨2⟩, ⟨1 / sqrtOne 2, 1 / 10⟩⟩),
    out_layer := ⟨2⟩ }

/-- Value of `BERTModel(layers=1, dropout=1/10, d_model=2, heads=1, d_ff=2)`
under `sqrtOne`, for concrete evaluations. -/
def bertW : BERTModel :=
  ⟨[⟨⟨1 / 10, .mha mhaW1⟩, ⟨1 / 10, .ff (ffInit (1 / 10) 2 2)⟩⟩]⟩

theorem getD_map_range {α : Type _} (g : ℕ → α) (d : α) {n i : ℕ} (hi : i < n) :
    ((List.range n).map g).getD i d = g i := by
  simp [List.getD_eq_getElem?_getD, List.getElem?_map, List.getElem?_range hi]

theorem headD_map_range {α : Type _} (g : ℕ → α) (d : α) {n : ℕ} (hn : 0 < n) :
    ((List.range n).map g).headD d = g 0 := by
  cases n with
  | zero => omega
  | succ m => simp [List.range_succ_eq_map]

theorem rsum_congr {n : ℕ} {f g : ℕ → ℚ} (h : ∀ i < n, f i = g i) :
    rsum n f = rsum n g := by
  unfold rsum
  rw [List.map_congr_left (fun a ha => h a (List.mem_range.mp ha))]

theorem zipWith_map_range {α β γ : Type _} (g : α → β → γ) (f1 : ℕ → α) (f2 : ℕ → β) (n : ℕ) :
    List.zipWith g ((List.range n).map f1) ((List.range n).map f2)
      = (List.range n).map (fun i => g (f1 i) (f2 i)) := by
  rw [List.zipWith_map, List.zipWith_same]

theorem mem_of_zipWith {α β γ : Type _} {f : α → β → γ} :
    ∀ {l1 : List α} {l2 : List β} {c : γ}, c ∈ List.zipWith f l1 l2 →
      ∃ a ∈ l1, ∃ b ∈ l2, c = f a b
  | [], _, _, h => by simp at h
  | _ :: _, [], _, h => by simp at h
  | a :: as, b :: bs, c, h => by
    rw [List.zipWith_cons_cons] at h
    rcases List.mem_cons.mp h with h1 | h2
    · exact ⟨a, List.mem_cons_self _ _, b, List.mem_cons_self _ _, h1⟩
    · obtain ⟨x, hx, y, hy, rfl⟩ := mem_of_zipWith h2
      exact ⟨x, List.mem_cons_of_mem _ hx, y, List.mem_cons_of_mem _ hy, rfl⟩

theorem snd_mem_of_mem_enumFrom {α : Type _} :
    ∀ {l : List α} {n : ℕ} {x : ℕ × α}, x ∈ l.enumFrom n → x.2 ∈ l
  | [], _, _, h => by simp at h
  | a :: as, n, x, h => by
    rw [List.enumFrom_cons] at h
    rcases List.mem_cons.mp h with h1 | h2
    · subst h1; exact List.mem_cons_self _ _
    · exact List.mem_cons_of_mem _ (snd_mem_of_mem_enumFrom h2)

theorem isTensor3_toTensor (b s f : ℕ) (g : ℕ → ℕ → ℕ → ℚ) :
    isTensor3 b s f (toTensor b s f g) := by
  refine ⟨by simp [toTensor], ?_⟩
  intro m hm
  simp only [toTensor, List.mem_map] at hm
  obtain ⟨i, hi, rfl⟩ := hm
  refine ⟨by simp, ?_⟩
  intro v hv
  simp only [List.mem_map] at hv
  obtain ⟨j, hj, rfl⟩ := hv
  simp

theorem get3_toTensor {b s f : ℕ} (g : ℕ → ℕ → ℕ → ℚ) {i j k : ℕ}
    (hi : i < b) (hj : j < s) (hk : k < f) :
    get3 (toTensor b s f g) i j k = g i j k := by
  unfold get3 toTensor
  rw [getD_map_range _ _ hi, getD_map_range _ _ hj, getD_map_range _ _ hk]

theorem vec_eq_map_range {v : List ℚ} {f : ℕ} (hv : v.length = f) :
    v = (List.range f).map (fun k => v.getD k 0) := by
  apply List.ext_getElem (by simp [hv])
  intro n h1 h2
  simp only [List.getElem_map, List.getElem_range]
  exact (List.getD_eq_getElem _ _ h1).symm

theorem mat_eq_map_range {m : List (List ℚ)} {s f : ℕ}
    (hm : m.length = s) (hf : ∀ v ∈ m, v.length = f) :
    m = (List.range s).map (fun j => (List.range f).map (fun k => (m.getD j []).getD k 0)) := by
  apply List.ext_getElem (by simp [hm])
  intro n h1 h2
  simp only [List.getElem_map, List.getElem_range, List.getD_eq_getElem _ _ h1]
  exact vec_eq_map_range (hf _ (List.getElem_mem h1))

theorem tensor_eq_toTensor {X : Tensor3} {b s f : ℕ} (hX : isTensor3 b s f X) :
    X = toTensor b s f (get3 X) := by
  obtain ⟨hb, hrest⟩ := hX
  apply List.ext_getElem (by simp [toTensor, hb])
  intro n h1 h2
  unfold toTensor get3
  simp only [List.getElem_map, List.getElem_range, List.getD_eq_getElem _ _ h1]
  obtain ⟨hs, hf⟩ := hrest _ (List.getElem_mem h1)
  exact mat_eq_map_range hs hf

theorem isGrid_of_isTensor3 {b s f : ℕ} {X : Tensor3} (h : isTensor3 b s f X) :
    isGrid b s X :=
  ⟨h.1, fun m hm => (h.2 m hm).1⟩

theorem shape_map3 {b s f : ℕ} {X : Tensor3} (g : ℚ → ℚ) (h : isTensor3 b s f X) :
    isTensor3 b s f (map3 g X) := by
  obtain ⟨hb, hr⟩ := h
  refine ⟨by simp [map3, hb], ?_⟩
  intro m hm
  simp only [map3, List.mem_map] at hm
  obtain ⟨m0, hm0, rfl⟩ := hm
  obtain ⟨hs, hf⟩ := hr m0 hm0
  refine ⟨by simp [hs], ?_⟩
  intro v hv
  simp only [List.mem_map] at hv
  obtain ⟨v0, hv0, rfl⟩ := hv
  simp [hf v0 hv0]

theorem shape_dense {b s : ℕ} {X : Tensor3} (n : ℕ) (W : ℕ → ℕ → ℚ) (bias : ℕ → ℚ)
    (h : isGrid b s X) : isTensor3 b s n (dense_on n W bias X) := by
  obtain ⟨hb, hr⟩ := h
  refine ⟨by simp [dense_on, hb], ?_⟩
  intro m hm
  simp only [dense_on, List.mem_map] at hm
  obtain ⟨m0, hm0, rfl⟩ := hm
  refine ⟨by simp [hr m0 hm0], ?_⟩
  intro v hv
  simp only [List.mem_map] at hv
  obtain ⟨x, hx, rfl⟩ := hv
  simp

theorem shape_tAdd {b s f : ℕ} {X Y : Tensor3} (hX : isTensor3 b s f X)
    (hY : isTensor3 b s f Y) : isTensor3 b s f (tAdd X Y) := by
  obtain ⟨hbX, hrX⟩ := hX
  obtain ⟨hbY, hrY⟩ := hY
  refine ⟨by simp [tAdd, List.length_zipWith, hbX, hbY], ?_⟩
  intro m hm
  obtain ⟨mx, hmx, my, hmy, rfl⟩ := mem_of_zipWith hm
  obtain ⟨hsx, hfx⟩ := hrX mx hmx
  obtain ⟨hsy, hfy⟩ := hrY my hmy
  refine ⟨by simp [List.length_zipWith, hsx, hsy], ?_⟩
  intro v hv
  obtain ⟨vx, hvx, vy, hvy, rfl⟩ := mem_of_zipWith hv
  simp [List.length_zipWith, hfx vx hvx, hfy vy hvy]

theorem length_layerNormVec (v : List ℚ) : (layerNormVec v).length = v.length := by
  simp [layerNormVec]

theorem shape_layerNorm {b s f : ℕ} {X : Tensor3} (h : isTensor3 b s f X) :
    isTensor3 b s f (layerNorm_on X) := by
  obtain ⟨hb, hr⟩ := h
  refine ⟨by simp [layerNorm_on, hb], ?_⟩
  intro m hm
  simp only [layerNorm_on, List.mem_map] at hm
  obtain ⟨m0, hm0, rfl⟩ := hm
  obtain ⟨hs, hf⟩ := hr m0 hm0
  refine ⟨by simp [hs], ?_⟩
  intro v hv
  simp only [List.mem_map] at hv
  obtain ⟨v0, hv0, rfl⟩ := hv
  simp [length_layerNormVec, hf v0 hv0]

theorem shape_sdpa {b nq nk dk dv : ℕ} {Q K V : Tensor3} (exp drop : ℚ → ℚ)
    (l : ScaledDotProdAttentionLayer)
    (hQ : isTensor3 b nq dk Q) (hK : isTensor3 b nk dk K) (hV : isTensor3 b nk dv V)
    (hnk : 1 ≤ nk ∨ nq = 0) :
    isTensor3 b nq dv (sdpa_on exp drop l Q K V) := by
  obtain ⟨hbQ, hrQ⟩ := hQ
  obtain ⟨hbK, hrK⟩ := hK
  obtain ⟨hbV, hrV⟩ := hV
  unfold sdpa_on dropout_on map3
  refine ⟨by simp [List.length_zipWith, hbQ, hbK, hbV], ?_⟩
  intro m hm
  obtain ⟨Sm, hSm, Vm, hVm, rfl⟩ := mem_of_zipWith hm
  simp only [List.mem_map] at hSm
  obtain ⟨Sm1, ⟨Dm, hDm, rfl⟩, rfl⟩ := hSm
  obtain ⟨Qm, hQm, Km, hKm, rfl⟩ := mem_of_zipWith hDm
  have hsQ := hrQ Qm hQm
  have hsV := hrV Vm hVm
  refine ⟨by simp [hsQ.1], ?_⟩
  intro v hv
  simp only [List.mem_map] at hv
  obtain ⟨srow, hsrow, rfl⟩ := hv
  rcases hnk with hnk | hnk
  · cases Vm with
    | nil =>
      have h0 : nk = 0 := by simpa using hsV.1.symm
      omega
    | cons v0 rest =>
      have hv0 : v0.length = dv := hsV.2 v0 (List.mem_cons_self _ _)
      simp [hv0]
  · exfalso
    have : Qm.length = 0 := by rw [hsQ.1, hnk]
    rw [List.length_eq_zero.mp this] at hsrow
    simp at hsrow

theorem shape_concat2 {b s n1 n2 : ℕ} {X Y : Tensor3}
    (hX : isTensor3 b s n1 X) (hY : isTensor3 b s n2 Y) :
    isTensor3 b s (n1 + n2) (concat2 X Y) := by
  obtain ⟨hbX, hrX⟩ := hX
  obtain ⟨hbY, hrY⟩ := hY
  refine ⟨by simp [concat2, List.length_zipWith, hbX, hbY], ?_⟩
  intro m hm
  obtain ⟨mx, hmx, my, hmy, rfl⟩ := mem_of_zipWith hm
  obtain ⟨hsx, hfx⟩ := hrX mx hmx
  obtain ⟨hsy, hfy⟩ := hrY my hmy
  refine ⟨by simp [List.length_zipWith, hsx, hsy], ?_⟩
  intro v hv
  obtain ⟨vx, hvx, vy, hvy, rfl⟩ := mem_of_zipWith hv
  simp [hfx vx hvx, hfy vy hvy]

theorem shape_concat_foldl {b s dk : ℕ} :
    ∀ (ts : List Tensor3) (acc : Tensor3) (n : ℕ),
      isTensor3 b s n acc → (∀ t ∈ ts, isTensor3 b s dk t) →
      isTensor3 b s (n + ts.length * dk) (ts.foldl concat2 acc)
  | [], acc, n, hacc, _ => by simpa using hacc
  | t :: ts, acc, n, hacc, hts => by
    have h1 : isTensor3 b s (n + dk) (concat2 acc t) :=
      shape_concat2 hacc (hts t (List.mem_cons_self _ _))
    have h2 := shape_concat_foldl ts (concat2 acc t) (n + dk) h1
      (fun t2 ht2 => hts t2 (List.mem_cons_of_mem _ ht2))
    have harith : n + (t :: ts).length * dk = n + dk + ts.length * dk := by
      simp [List.length_cons]; ring
    rw [List.foldl_cons, harith]
    exact h2

theorem shape_concatLast {b s dk : ℕ} {ts : List Tensor3} (hne : ts ≠ [])
    (hts : ∀ t ∈ ts, isTensor3 b s dk t) :
    isTensor3 b s (ts.length * dk) (concatLast ts) := by
  cases ts with
  | nil => exact absurd rfl hne
  | cons t rest =>
    have h := shape_concat_foldl rest t dk (hts t (List.mem_cons_self _ _))
      (fun t2 ht2 => hts t2 (List.mem_cons_of_mem _ ht2))
    have harith : (t :: rest).length * dk = dk + rest.length * dk := by
      simp [List.length_cons]; ring
    rw [concatLast, harith]
    exact h

theorem mhaInit_ok {sqrt : ℕ → ℚ} {dr : ℚ} {d_model h : ℕ} {m : MultiHeadAttention}
    (hok : mhaInit sqrt dr d_model h = .ok m) :
    1 ≤ h ∧ m.h = h ∧ m.d_k = d_model / h ∧ m.d_model = d_model ∧
    m.scale = 1 / sqrt (d_model / h) ∧
    m.heads = (List.range h).map
      (fun _ => ⟨⟨d_model / h⟩, ⟨d_model / h⟩, ⟨d_model / h⟩,
        ⟨1 / sqrt (d_model / h), dr⟩⟩) ∧
    m.out_layer = ⟨d_model⟩ := by
  by_cases hz : h = 0
  · subst hz
    simp [mhaInit, pydiv] at hok
  · unfold mhaInit pydiv at hok
    rw [if_neg hz] at hok
    simp only [Except.ok.injEq] at hok
    subst hok
    exact ⟨Nat.one_le_iff_ne_zero.mpr hz, rfl, rfl, rfl, rfl, rfl, rfl⟩

theorem snd_mem_of_mem_enum {α : Type _} {l : List α} {x : ℕ × α} (h : x ∈ l.enum) :
    x.2 ∈ l :=
  snd_mem_of_mem_enumFrom h

theorem shape_head_on {b s : ℕ} {X : Tensor3} (exp drop : ℚ → ℚ) (p : MHAParams)
    (i : ℕ) {dk : ℕ} (hd : Head) (h1 : hd.to_q.out_dim = dk) (h2 : hd.to_k.out_dim = dk)
    (h3 : hd.to_v.out_dim = dk) (hX : isGrid b s X) :
    isTensor3 b s dk (head_on exp drop p i hd X) := by
  unfold head_on
  rw [h1, h2, h3]
  exact shape_sdpa exp drop _ (shape_dense _ _ _ hX) (shape_dense _ _ _ hX)
    (shape_dense _ _ _ hX)
    (by rcases Nat.eq_zero_or_pos s with h0 | h4
        · exact Or.inr h0
        · exact Or.inl h4)

theorem shape_mha {b s d_model h : ℕ} {sqrt : ℕ → ℚ} {dr : ℚ} {m : MultiHeadAttention}
    (exp drop : ℚ → ℚ) (p : MHAParams) {X : Tensor3}
    (hok : mhaInit sqrt dr d_model h = .ok m) (hX : isGrid b s X) :
    isTensor3 b s d_model (mha_on exp drop p m X) := by
  obtain ⟨hh, hmh, hdk, hdm, hsc, hheads, hout⟩ := mhaInit_ok hok
  unfold mha_on
  rw [hout]
  apply shape_dense
  have hlen : (m.heads.enum.map (fun ih => head_on exp drop p ih.1 ih.2 X)).length = h := by
    simp [List.enum, hheads]
  have hattAll : ∀ t ∈ m.heads.enum.map (fun ih => head_on exp drop p ih.1 ih.2 X),
      isTensor3 b s (d_model / h) t := by
    intro t ht
    simp only [List.mem_map] at ht
    obtain ⟨ih, hih, rfl⟩ := ht
    have hhead : ih.2 ∈ m.heads := snd_mem_of_mem_enum hih
    rw [hheads] at hhead
    simp only [List.mem_map] at hhead
    obtain ⟨i0, hi0, hEq⟩ := hhead
    exact shape_head_on exp drop p ih.1 ih.2 (by rw [← hEq]) (by rw [← hEq])
      (by rw [← hEq]) hX
  have hne : m.heads.enum.map (fun ih => head_on exp drop p ih.1 ih.2 X) ≠ [] := by
    rw [← List.length_pos, hlen]
    omega
  exact isGrid_of_isTensor3 (shape_concatLast hne hattAll)

theorem shape_ff {b s : ℕ} {X : Tensor3} (drop : ℚ → ℚ) (p : FFParams)
    (f : FeedForwardLayer) (hX : isGrid b s X) :
    isTensor3 b s f.linear2.out_dim (ff_on drop p f X) := by
  unfold ff_on dropout_on relu_on
  exact shape_dense _ _ _ (isGrid_of_isTensor3 (shape_map3 _ (shape_map3 _
    (shape_dense _ _ _ hX))))

theorem shape_encoderSub_mha {b s d_model h : ℕ} {sqrt : ℕ → ℚ} {dr dr2 : ℚ}
    {m : MultiHeadAttention} (exp drop : ℚ → ℚ) (p : EncParams) {X : Tensor3}
    (hok : mhaInit sqrt dr d_model h = .ok m) (hX : isTensor3 b s d_model X) :
    isTensor3 b s d_model (encoderSub_on exp drop p ⟨dr2, .mha m⟩ X) := by
  simp only [encoderSub_on, subLayer_on, dropout_on]
  exact shape_tAdd hX (shape_map3 _ (shape_mha exp drop p.attn hok
    (isGrid_of_isTensor3 (shape_layerNorm hX))))

theorem shape_encoderSub_ff {b s d_model d_ff : ℕ} {dr2 dr3 : ℚ}
    (exp drop : ℚ → ℚ) (p : EncParams) {X : Tensor3}
    (hX : isTensor3 b s d_model X) :
    isTensor3 b s d_model
      (encoderSub_on exp drop p ⟨dr2, .ff (ffInit dr3 d_model d_ff)⟩ X) := by
  simp only [encoderSub_on, subLayer_on, dropout_on]
  exact shape_tAdd hX (shape_map3 _ (shape_ff drop p.ffwd _
    (isGrid_of_isTensor3 (shape_layerNorm hX))))

theorem encoderLayerInit_ok {sqrt : ℕ → ℚ} {dr : ℚ} {d_model h d_ff : ℕ}
    {el : EncoderLayer} (hok : encoderLayerInit sqrt dr d_model h d_ff = .ok el) :
    ∃ m, mhaInit sqrt dr d_model h = .ok m ∧
      el = ⟨⟨dr, .mha m⟩, ⟨dr, .ff (ffInit dr d_model d_ff)⟩⟩ := by
  unfold encoderLayerInit at hok
  split at hok
  · simp at hok
  · next m heq =>
    simp only [Except.ok.injEq] at hok
    exact ⟨m, heq, hok.symm⟩

theorem shape_encoderLayer {b s d_model h d_ff : ℕ} {sqrt : ℕ → ℚ} {dr : ℚ}
    {el : EncoderLayer} (exp drop : ℚ → ℚ) (p : EncParams) {X : Tensor3}
    (hok : encoderLayerInit sqrt dr d_model h d_ff = .ok el)
    (hX : isTensor3 b s d_model X) :
    isTensor3 b s d_model (encoderLayer_on exp drop p el X) := by
  obtain ⟨m, hm, rfl⟩ := encoderLayerInit_ok hok
  unfold encoderLayer_on
  exact shape_encoderSub_ff exp drop p (shape_encoderSub_mha exp drop p hm hX)

theorem initLayers_mem {sqrt : ℕ → ℚ} {dr : ℚ} {d_model h d_ff : ℕ} :
    ∀ {n : ℕ} {ls : List EncoderLayer},
      initLayers sqrt dr d_model h d_ff n = .ok ls →
      ∀ el ∈ ls, encoderLayerInit sqrt dr d_model h d_ff = .ok el
  | 0, ls, hok => by
    simp only [initLayers, Except.ok.injEq] at hok
    subst hok
    intro el hel
    simp at hel
  | n + 1, ls, hok => by
    unfold initLayers at hok
    split at hok
    · simp at hok
    · next el0 heq =>
      split at hok
      · simp at hok
      · next rest hrest =>
        simp only [Except.ok.injEq] at hok
        subst hok
        intro el hel
        rcases List.mem_cons.mp hel with h1 | h2
        · subst h1
          exact heq
        · exact initLayers_mem hrest el h2

theorem shape_bert_foldl {b s d_model h d_ff : ℕ} {sqrt : ℕ → ℚ} {dr : ℚ}
    (exp drop : ℚ → ℚ) (p : ℕ → EncParams) :
    ∀ (ls : List EncoderLayer) (i : ℕ) (X : Tensor3),
      (∀ el ∈ ls, encoderLayerInit sqrt dr d_model h d_ff = .ok el) →
      isTensor3 b s d_model X →
      isTensor3 b s d_model ((ls.enumFrom i).foldl
        (fun acc il => encoderLayer_on exp drop (p il.1) il.2 acc) X)
  | [], i, X, _, hX => by simpa using hX
  | el :: ls, i, X, hall, hX => by
    rw [List.enumFrom_cons, List.foldl_cons]
    exact shape_bert_foldl exp drop p ls (i + 1) _
      (fun el2 h2 => hall el2 (List.mem_cons_of_mem _ h2))
      (shape_encoderLayer exp drop _ (hall el (List.mem_cons_self _ _)) hX)

/-- C3: the first call of a `graph_def`-wrapped `on` computes and caches the
output; any later call on the same instance returns the identical cached
tensor and leaves the cache unchanged, regardless of the arguments passed. -/
theorem graph_def_first_call_caches_then_returns_cached {α β : Type _}
    (f : α → β) (c : Option β) (x1 x2 : α) :
    graph_def f none x1 = (f x1, some (f x1)) ∧
    (graph_def f (graph_def f c x1).2 x2).1 = (graph_def f c x1).1 ∧
    (graph_def f (graph_def f c x1).2 x2).2 = (graph_def f c x1).2 := by
  cases c <;> simp [graph_def]

/-- C10: constructing `MultiHeadAttention` with `h = 0` (alone, inside an
`EncoderLayer`, or inside a `BERTModel` with at least one layer) raises
Python's `ZeroDivisionError` at `d_k = d_model // h`, before any head,
sub-layer or tensor is created. -/
theorem mha_heads_zero_zero_division_error (sqrt : ℕ → ℚ) (dr : ℚ) (d_model d_ff n : ℕ) :
    mhaInit sqrt dr d_model 0 = .error zeroDivMsg ∧
    encoderLayerInit sqrt dr d_model 0 d_ff = .error zeroDivMsg ∧
    bertInit sqrt (n + 1) dr d_model 0 d_ff = .error zeroDivMsg :=
  ⟨rfl, rfl, rfl⟩

/-- C1 counterexample: `MultiHeadAttention(dropout, d_model=5, h=3)`
constructs successfully (`5 % 3 ≠ 0` notwithstanding), so construction does
not abort with an error on a non-divisible configuration. -/
theorem mha_heads3_dmodel5_constructs :
    isOk (mhaInit sqrtOne (1 / 10) 5 3) = true := rfl

/-- C1 amended: `MultiHeadAttention.__init__` performs no divisibility check;
for every `h ≥ 1` — whether or not `h` divides `d_model` — construction
succeeds. -/
theorem mha_construction_lacks_divisibility_check (sqrt : ℕ → ℚ) (dr : ℚ)
    (d_model h : ℕ) (hh : 1 ≤ h) :
    isOk (mhaInit sqrt dr d_model h) = true := by
  unfold mhaInit pydiv
  rw [if_neg (by omega)]
  rfl

/-- Witness for the amended C1 at the spec's own scenario `d_model=5, h=3`. -/
theorem mha_construction_lacks_divisibility_check_witness :
    isOk (mhaInit sqrtOne (1 / 10) 5 3) = true :=
  mha_construction_lacks_divisibility_check sqrtOne (1 / 10) 5 3 (by decide)

theorem zipWith_add_map_zero_vec (v w : List ℚ) (h : w.length = v.length) :
    List.zipWith (fun a b => a + b) v (w.map (fun _ => (0 : ℚ))) = v := by
  induction v generalizing w with
  | nil => simp
  | cons a as ih =>
    cases w with
    | nil => simp at h
    | cons c cs =>
      simp only [List.map_cons, List.zipWith_cons_cons, add_zero]
      rw [ih cs (by simpa using h)]

theorem zipWith_add_map_zero_mat (f : ℕ) : ∀ (m w : List (List ℚ)),
    w.length = m.length → (∀ v ∈ m, v.length = f) → (∀ v ∈ w, v.length = f) →
    List.zipWith (List.zipWith (fun a b => a + b)) m
      (w.map (fun v => v.map (fun _ => (0 : ℚ)))) = m
  | [], _, _, _, _ => by simp
  | a :: as, [], h, _, _ => by simp at h
  | a :: as, c :: cs, h, hm2, hw2 => by
    simp only [List.map_cons, List.zipWith_cons_cons]
    congr 1
    · exact zipWith_add_map_zero_vec a c
        (by rw [hw2 c (List.mem_cons_self _ _), hm2 a (List.mem_cons_self _ _)])
    · exact zipWith_add_map_zero_mat f as cs (by simpa using h)
        (fun v hv => hm2 v (List.mem_cons_of_mem _ hv))
        (fun v hv => hw2 v (List.mem_cons_of_mem _ hv))

theorem zipWith_add_map_zero_t (s f : ℕ) : ∀ (X Y : Tensor3),
    Y.length = X.length →
    (∀ m ∈ X, m.length = s ∧ ∀ v ∈ m, v.length = f) →
    (∀ m ∈ Y, m.length = s ∧ ∀ v ∈ m, v.length = f) →
    List.zipWith (List.zipWith (List.zipWith (fun a b => a + b))) X
      (Y.map (fun m => m.map (fun v => v.map (fun _ => (0 : ℚ))))) = X
  | [], _, _, _, _ => by simp
  | a :: as, [], h, _, _ => by simp at h
  | a :: as, c :: cs, h, hX, hY => by
    simp only [List.map_cons, List.zipWith_cons_cons]
    congr 1
    · have hXa := hX a (List.mem_cons_self _ _)
      have hYc := hY c (List.mem_cons_self _ _)
      exact zipWith_add_map_zero_mat f a c (by rw [hYc.1, hXa.1]) hXa.2 hYc.2
    · exact zipWith_add_map_zero_t s f as cs (by simpa using h)
        (fun m hm => hX m (List.mem_cons_of_mem _ hm))
        (fun m hm => hY m (List.mem_cons_of_mem _ hm))

theorem tAdd_map3_zero {b s f : ℕ} {X Y : Tensor3} (hX : isTensor3 b s f X)
    (hY : isTensor3 b s f Y) : tAdd X (map3 (fun _ => 0) Y) = X := by
  unfold tAdd map3
  exact zipWith_add_map_zero_t s f X Y (by rw [hY.1, hX.1]) hX.2 hY.2

/-- C4: `EncoderSubLayer.on(X)` is exactly `X + Dropout(sublayer(LayerNorm(X)))`
(pre-normalization: the norm is applied before the hosted sublayer), and the
residual path carries the un-normalized `X` forward unchanged: when the engine
dropout transform annihilates the sublayer branch, the output is exactly `X`. -/
theorem encoderSub_prenorm_residual (exp drop : ℚ → ℚ) (p : EncParams) (dr dr2 : ℚ)
    (sk : SubLayer) {b s f d_ff : ℕ} {X : Tensor3} (hX : isTensor3 b s f X) :
    encoderSub_on exp drop p ⟨dr, sk⟩ X
        = resNorm_spec drop (subLayer_on exp drop p sk) X ∧
    encoderSub_on exp (fun _ => 0) p ⟨dr, SubLayer.ff (ffInit dr2 f d_ff)⟩ X = X := by
  constructor
  · rfl
  · simp only [encoderSub_on, subLayer_on, dropout_on]
    exact tAdd_map3_zero hX (shape_ff (fun _ => 0) p.ffwd _
      (isGrid_of_isTensor3 (shape_layerNorm hX)))

/-- Witness for C4 at `X = [[[3]]]` with a feed-forward sublayer. -/
theorem encoderSub_prenorm_residual_witness :
    encoderSub_on qexp qdrop encPZero ⟨1 / 10, SubLayer.ff (ffInit (1 / 10) 1 1)⟩ [[[3]]]
        = resNorm_spec qdrop
            (subLayer_on qexp qdrop encPZero (SubLayer.ff (ffInit (1 / 10) 1 1))) [[[3]]] ∧
    encoderSub_on qexp (fun _ => 0) encPZero
        ⟨1 / 10, SubLayer.ff (ffInit (1 / 10) 1 1)⟩ [[[3]]] = [[[3]]] :=
  encoderSub_prenorm_residual qexp qdrop encPZero (1 / 10) (1 / 10)
    (SubLayer.ff (ffInit (1 / 10) 1 1)) (show isTensor3 1 1 1 [[[3]]] by decide)

/-- C6: for a divisible configuration (`d_model % h = 0`), a constructed
`MultiHeadAttention` has head width `d_k = d_model // h`, the `h` concatenated
head outputs reconstruct exactly `h * d_k = d_model` features, and
`MultiHeadAttention.on` maps any `[b, s, d_model]` input to a
`[b, s, d_model]` output. -/
theorem mha_on_shape_preserving_divisible {sqrt : ℕ → ℚ} {dr : ℚ}
    {d_model h b s : ℕ} {m : MultiHeadAttention} (exp drop : ℚ → ℚ) (p : MHAParams)
    {X : Tensor3} (hdiv : d_model % h = 0)
    (hok : mhaInit sqrt dr d_model h = .ok m) (hX : isTensor3 b s d_model X) :
    m.d_k = d_model / h ∧ m.h * m.d_k = d_model ∧
    isTensor3 b s d_model (mha_on exp drop p m X) := by
  obtain ⟨hh, hmh, hdk, hdm, hsc, hheads, hout⟩ := mhaInit_ok hok
  refine ⟨hdk, ?_, shape_mha exp drop p hok (isGrid_of_isTensor3 hX)⟩
  rw [hmh, hdk]
  exact Nat.mul_div_cancel' (Nat.dvd_of_mod_eq_zero hdiv)

/-- Witness for C6 at `d_model = 2`, `h = 2`, `X = [[[1, 2]]]`. -/
theorem mha_on_shape_preserving_divisible_witness :
    mhaW.d_k = 2 / 2 ∧ mhaW.h * mhaW.d_k = 2 ∧
    isTensor3 1 1 2 (mha_on qexp qdrop pZero mhaW [[[1, 2]]]) :=
  mha_on_shape_preserving_divisible qexp qdrop pZero (by decide) (by rfl) (by decide)

/-- C9: for every `h ≥ 1`, divisible or not, `MultiHeadAttention` construction
succeeds with `d_k = d_model // h` (floor), and `MultiHeadAttention.on` still
returns a `[b, s, d_model]` tensor on any `[b, s, d_model]` input, because the
concatenated head outputs are re-projected to `d_model` by the output layer. -/
theorem mha_floor_div_construction_and_shape {sqrt : ℕ → ℚ} {dr : ℚ}
    {d_model h b s : ℕ} (exp drop : ℚ → ℚ) (p : MHAParams) {X : Tensor3}
    (hh : 1 ≤ h) (hX : isTensor3 b s d_model X) :
    ∃ m, mhaInit sqrt dr d_model h = .ok m ∧ m.d_k = d_model / h ∧
      isTensor3 b s d_model (mha_on exp drop p m X) := by
  have hne : h ≠ 0 := by omega
  have hok : mhaInit sqrt dr d_model h = .ok
      { h := h, d_k := d_model / h, d_model := d_model,
        scale := 1 / sqrt (d_model / h),
        heads := (List.range h).map
          (fun _ => ⟨⟨d_model / h⟩, ⟨d_model / h⟩, ⟨d_model / h⟩,
            ⟨1 / sqrt (d_model / h), dr⟩⟩),
        out_layer := ⟨d_model⟩ } := by
    unfold mhaInit pydiv
    rw [if_neg hne]
  exact ⟨_, hok, rfl, shape_mha exp drop p hok (isGrid_of_isTensor3 hX)⟩

/-- Witness for C9 at the notebook's own non-divisible configuration
`d_model = 5`, `h = 3`. -/
theorem mha_floor_div_construction_and_shape_witness :
    ∃ m, mhaInit sqrtOne (1 / 10) 5 3 = .ok m ∧ m.d_k = 5 / 3 ∧
      isTensor3 1 1 5 (mha_on qexp qdrop pZero m [[[1, 2, 3, 4, 5]]]) :=
  mha_floor_div_construction_and_shape qexp qdrop pZero (by decide) (by decide)

/-- C7: a constructed `BERTModel` pipes the input through its encoder layers
in construction order and preserves the `[b, s, d_model]` shape; with zero
layers the evaluation is the identity map on the input. -/
theorem bert_on_shape_preserving_and_zero_layers_identity
    {sqrt : ℕ → ℚ} {dr : ℚ} {L d_model h d_ff b s : ℕ} {bm : BERTModel}
    (exp drop : ℚ → ℚ) (p : ℕ → EncParams) {X : Tensor3}
    (hok : bertInit sqrt L dr d_model h d_ff = .ok bm)
    (hX : isTensor3 b s d_model X) :
    isTensor3 b s d_model (bert_on exp drop p bm X) ∧
    (L = 0 → bert_on exp drop p bm X = X) := by
  unfold bertInit at hok
  cases hl : initLayers sqrt dr d_model h d_ff L with
  | error e =>
    rw [hl] at hok
    simp [Except.map] at hok
  | ok ls =>
    rw [hl] at hok
    simp only [Except.map, Except.ok.injEq] at hok
    subst hok
    constructor
    · exact shape_bert_foldl exp drop p ls 0 X (initLayers_mem hl) hX
    · intro h0
      subst h0
      simp only [initLayers, Except.ok.injEq] at hl
      subst hl
      rfl

/-- Witness for C7: one encoder layer, `d_model = 2`, `h = 1`, `d_ff = 2`. -/
theorem bert_on_shape_preserving_and_zero_layers_identity_witness :
    isTensor3 1 1 2 (bert_on qexp qdrop (fun _ => encPZero) bertW [[[1, 2]]]) ∧
    (1 = 0 → bert_on qexp qdrop (fun _ => encPZero) bertW [[[1, 2]]] = [[[1, 2]]]) :=
  bert_on_shape_preserving_and_zero_layers_identity qexp qdrop (fun _ => encPZero)
    (show bertInit sqrtOne 1 (1 / 10) 2 1 2 = Except.ok bertW from rfl) (by decide)

theorem dotsum_eq (Qf Kf : ℕ → ℕ → ℕ → ℚ) (dk bi q k : ℕ) :
    (List.map
      (fun i => ((List.range dk).map (fun j => Qf bi q j)).getD i 0 *
                ((List.range dk).map (fun j => Kf bi k j)).getD i 0)
      (List.range ((List.range dk).map (fun j => Qf bi q j)).length)).sum
      = sdpaDot Qf Kf dk bi q k := by
  simp only [List.length_map, List.length_range]
  show rsum dk _ = _
  unfold sdpaDot
  apply rsum_congr
  intro i hi
  rw [getD_map_range _ _ hi, getD_map_range _ _ hi]

theorem sdpa_on_toTensor (exp drop : ℚ → ℚ) (l : ScaledDotProdAttentionLayer)
    {b nq nk dk dv : ℕ} (hnk : 1 ≤ nk) (Qf Kf Vf : ℕ → ℕ → ℕ → ℚ) :
    sdpa_on exp drop l (toTensor b nq dk Qf) (toTensor b nk dk Kf) (toTensor b nk dv Vf)
      = toTensor b nq dv (sdpaFormula exp drop l.scale nk dk Qf Kf Vf) := by
  simp only [sdpa_on, dropout_on, map3, toTensor, softmaxVec]
  rw [zipWith_map_range]
  simp only [List.map_map]
  rw [zipWith_map_range]
  apply List.map_congr_left
  intro bi _
  simp only [Function.comp_apply, List.map_map]
  have hden : (((List.range nk).map (fun j => (List.range dv).map (Vf bi j))).headD
      ([] : List ℚ)) = (List.range dv).map (Vf bi 0) :=
    headD_map_range _ _ (by omega)
  simp only [hden, List.length_map, List.length_range]
  apply List.map_congr_left
  intro q _
  simp only [Function.comp_apply, List.map_map]
  apply List.map_congr_left
  intro d hd
  simp only [sdpaFormula, rsum]
  refine congrArg List.sum ?_
  apply List.map_congr_left
  intro k hk
  have hk2 := List.mem_range.mp hk
  have hd2 := List.mem_range.mp hd
  rw [getD_map_range _ _ hk2, getD_map_range _ _ hk2, getD_map_range _ _ hd2]
  simp only [Function.comp_def, Function.comp_apply]
  simp only [dotsum_eq]

/-- C5: `ScaledDotProdAttentionLayer.on(Q, K, V)` on shaped inputs
`Q : [b, nq, dk]`, `K : [b, nk, dk]`, `V : [b, nk, dv]` returns a
`[b, nq, dv]` tensor whose entries are exactly the spec pipeline: raw scores
`dot[b,q,k] = Σ_d Q[b,q,d]·K[b,k,d]`, multiplied by the construction-time
scale BEFORE the softmax over the key axis, dropout applied to the softmax
scores, then `A[b,q,d] = Σ_k scores[b,q,k]·V[b,k,d]`. -/
theorem sdpa_on_functional_correctness (exp drop : ℚ → ℚ)
    (l : ScaledDotProdAttentionLayer) {Q K V : Tensor3} {b nq nk dk dv : ℕ}
    (hQ : isTensor3 b nq dk Q) (hK : isTensor3 b nk dk K) (hV : isTensor3 b nk dv V)
    (hnk : 1 ≤ nk) :
    isTensor3 b nq dv (sdpa_on exp drop l Q K V) ∧
    ∀ bi qi di, bi < b → qi < nq → di < dv →
      get3 (sdpa_on exp drop l Q K V) bi qi di
        = sdpaFormula exp drop l.scale nk dk (get3 Q) (get3 K) (get3 V) bi qi di := by
  have hQe := tensor_eq_toTensor hQ
  have hKe := tensor_eq_toTensor hK
  have hVe := tensor_eq_toTensor hV
  constructor
  · rw [hQe, hKe, hVe, sdpa_on_toTensor exp drop l hnk]
    exact isTensor3_toTensor _ _ _ _
  · intro bi qi di h1 h2 h3
    conv_lhs => rw [hQe, hKe, hVe]
    rw [sdpa_on_toTensor exp drop l hnk]
    exact get3_toTensor _ h1 h2 h3

/-- Witness for C5 at `b = 1`, `nq = 1`, `nk = 2`, `dk = 1`, `dv = 1`. -/
theorem sdpa_on_functional_correctness_witness :
    isTensor3 1 1 1 (sdpa_on qexp qdrop ⟨1, 1 / 10⟩ [[[1]]] [[[1], [2]]] [[[3], [4]]]) ∧
    ∀ bi qi di, bi < 1 → qi < 1 → di < 1 →
      get3 (sdpa_on qexp qdrop ⟨1, 1 / 10⟩ [[[1]]] [[[1], [2]]] [[[3], [4]]]) bi qi di
        = sdpaFormula qexp qdrop 1 2 1
            (get3 [[[1]]]) (get3 [[[1], [2]]]) (get3 [[[3], [4]]]) bi qi di :=
  sdpa_on_functional_correctness qexp qdrop ⟨1, 1 / 10⟩
    (by decide) (by decide) (by decide) (by decide)

/-- C2: the claim states `LayerNormLayer.on` returns `(X − μ)/(σ + ε)` with
`ε` added to the standard deviation.  The source binds the second result of
`tf.nn.moments` — the variance — to `self.std` and divides by it, so on the
feature vector `[0, 4]` (`μ = 2`, `σ² = 4`, `σ = 2`) the code returns
`±2000000/4000001 ≈ ±1/2` and not `±2000000/2000001 ≈ ±1` as `(X − μ)/(σ + ε)`
requires. -/
theorem layerNorm_adds_eps_to_variance_not_std :
    layerNorm_on [[[0, 4]]] = [[[-(2000000 / 4000001), 2000000 / 4000001]]] ∧
    layerNorm_on [[[0, 4]]] ≠ [[[-(2000000 / 2000001), 2000000 / 2000001]]] := by
  norm_num [layerNorm_on, layerNormVec, moments, eps]

/-- C8: on the feature vector `[0, 4]` the LayerNorm output has feature-axis
mean exactly 0 but variance `(2000000/4000001)² < 1/2`, hence standard
deviation about `1/2` — far outside any `ε`-scale tolerance of the claimed
standard deviation ≈ 1.  (The variance-instead-of-std slip of C2 rescales the
output by `σ/(σ² + ε)` instead of `σ/(σ + ε)`.) -/
theorem layerNorm_output_std_not_one :
    (moments (layerNormVec [0, 4])).1 = 0 ∧
    (moments (layerNormVec [0, 4])).2 = (2000000 / 4000001) ^ 2 ∧
    (moments (layerNormVec [0, 4])).2 < 1 / 2 := by
  refine ⟨?_, ?_, ?_⟩ <;> norm_num [layerNormVec, moments, eps]

end MiniBert
